import Mathlib

set_option maxRecDepth 100000

/-!
Verification of the subtitle pipeline of the `subs` repository.

The Python source is shallowly embedded: machine integers are `Int`/`Nat`
(Python integers are unbounded, so no wrap-around is modelled), strings are
`String`/`List Char`, and code that can raise an exception returns `Option`.
The embedding covers:

* `src/models.py` : `Timestamp` (`_parse`, `__str__`, `__add__`),
  `SubtitleEntry` (`to_srt_block`, `offset`), `Transcription`
  (`from_srt`, `offset`, `translate_subtitles` request construction and
  response reconciliation, `_get_elem_by_id`);
* `src/utils/preprocess_audio.py` : `chunk_audio`;
* `src/utils/process_trancsription.py` : `process_transcription`.
-/

/-! ## Decimal digits and Python-style number formatting -/

/-- The decimal digit character for a value `0..9` (other inputs give a
placeholder that never arises in the proofs). -/
def digitChar : Nat → Char
  | 0 => '0' | 1 => '1' | 2 => '2' | 3 => '3' | 4 => '4'
  | 5 => '5' | 6 => '6' | 7 => '7' | 8 => '8' | 9 => '9'
  | _ => '*'

/-- Numeric value of a decimal digit character. -/
def digitVal (c : Char) : Nat := c.toNat - 48

/-- Decimal digit list (most significant first) with a fuel bound; the fuel
only serves structural recursion, `n + 1` steps always suffice. -/
def natDigitsAux : Nat → Nat → List Char
  | 0, _ => []
  | fuel + 1, n =>
    if n < 10 then [digitChar n]
    else natDigitsAux fuel (n / 10) ++ [digitChar (n % 10)]

/-- Decimal digit list of a natural number, most significant digit first,
as Python `str(n)` produces for `n >= 0`. -/
def natDigits (n : Nat) : List Char := natDigitsAux (n + 1) n

/-- Python `str(i)` for an integer `i`. -/
def intStr (i : Int) : String :=
  if i < 0 then "-" ++ String.mk (natDigits i.natAbs) else String.mk (natDigits i.toNat)

/-- Python `f"{i:02}"`: pad with one leading zero when the rendering of `i`
is a single character (a sign counts towards the width, as in Python). -/
def padInt2 (i : Int) : String :=
  if 0 ≤ i ∧ i < 10 then "0" ++ intStr i else intStr i

/-- Python `f"{i:03}"` for the non-negative values it is applied to
(milliseconds produced by `emod 1000`). -/
def padInt3 (i : Int) : String :=
  if 0 ≤ i ∧ i < 10 then "00" ++ intStr i
  else if 0 ≤ i ∧ i < 100 then "0" ++ intStr i
  else intStr i

/-! ## `Timestamp` (src/models.py lines 21-82)

A Python `Timestamp` stores `milliseconds : int`; we represent it by that
integer directly.  `_parse` uses `re.match` on the pattern
`(\d{2}):(\d{2}):(\d{2}),(\d{3})`, i.e. a prefix match that allows trailing
characters, and raises `ValueError` on failure, which the embedding renders
as `none`. -/

/-- `Timestamp._parse` on the character list of the argument. -/
def tsParseChars : List Char → Option Int
  | c0 :: c1 :: ':' :: c3 :: c4 :: ':' :: c6 :: c7 :: ',' :: c9 :: c10 :: c11 :: _ =>
    if c0.isDigit && c1.isDigit && c3.isDigit && c4.isDigit && c6.isDigit &&
        c7.isDigit && c9.isDigit && c10.isDigit && c11.isDigit then
      let hr := 10 * digitVal c0 + digitVal c1
      let mi := 10 * digitVal c3 + digitVal c4
      let s := 10 * digitVal c6 + digitVal c7
      let ms := 100 * digitVal c9 + 10 * digitVal c10 + digitVal c11
      some (((hr * 3600 + mi * 60 + s) * 1000 + ms : Nat) : Int)
    else none
  | _ => none

/-- `Timestamp._parse`: `HH:MM:SS,mmm` to milliseconds, `none` on the
`ValueError` path. -/
def tsParse (s : String) : Option Int := tsParseChars s.data

/-- `Timestamp.__str__`: milliseconds back to `HH:MM:SS,mmm`.  Python `//`
and `%` on a positive divisor are Euclidean division, which is what `/` and
`%` denote on `Int`. -/
def tsToString (n : Int) : String :=
  let ms := n % 1000
  let s := (n / 1000) % 60
  let mi := (n / (1000 * 60)) % 60
  let hr := n / (1000 * 3600)
  padInt2 hr ++ ":" ++ padInt2 mi ++ ":" ++ padInt2 s ++ "," ++ padInt3 ms

/-! ## `SubtitleEntry` and `Transcription` data model (src/models.py) -/

/-- `SubtitleEntry` (src/models.py lines 84-93): index, start/end time
strings, text, optional translation. -/
structure SubtitleEntry where
  index : Int
  start_time : String
  end_time : String
  text : String
  translation : Option String
deriving DecidableEq, Repr

/-- `Transcription` (src/models.py lines 121-129). -/
structure Transcription where
  subtitles : List SubtitleEntry
  end_time : Int
  end_index : Int
  language : Option String
deriving DecidableEq, Repr

/-- Python truthiness of an `Optional[str]`: `None` and `""` are falsy. -/
def strTruthy : Option String → Bool
  | none => false
  | some s => s ≠ ""

/-- The `f"{self.index}\n{self.start_time} --> {self.end_time}\n"` part of
`SubtitleEntry.to_srt_block`. -/
def srtHeader (e : SubtitleEntry) : String :=
  intStr e.index ++ "\n" ++ e.start_time ++ " --> " ++ e.end_time ++ "\n"

/-- `SubtitleEntry.to_srt_block` (src/models.py lines 95-106). -/
def toSrtBlock (e : SubtitleEntry) (use_translation : Bool) (bilingual : Bool) : String :=
  let content := if use_translation && strTruthy e.translation then e.translation.getD "" else e.text
  let content := if bilingual && strTruthy e.translation
    then e.text ++ "\n" ++ e.translation.getD "" else content
  srtHeader e ++ content ++ "\n"

/-- `SubtitleEntry.offset` (src/models.py lines 108-119): re-parse both time
strings, add the offset, store the formatted results.  A malformed time
string raises `ValueError` in Python, rendered as `none`. -/
def subtitleOffset (e : SubtitleEntry) (offset_ms : Int) : Option SubtitleEntry :=
  match tsParse e.start_time, tsParse e.end_time with
  | some a, some b =>
    some { e with start_time := tsToString (a + offset_ms), end_time := tsToString (b + offset_ms) }
  | _, _ => none

/-- The loop of `Transcription.offset`: each entry is time-shifted via
`SubtitleEntry.offset` and then its index incremented. -/
def offsetEntries (offset_ms offset_index : Int) : List SubtitleEntry → Option (List SubtitleEntry)
  | [] => some []
  | e :: rest =>
    match subtitleOffset e offset_ms with
    | none => none
    | some e2 =>
      (offsetEntries offset_ms offset_index rest).map
        (fun l => { e2 with index := e2.index + offset_index } :: l)

/-- `Transcription.offset` (src/models.py lines 163-174): shift every
entry's times by `offset_ms` and its index by `offset_index`.  The
`end_time`, `end_index` and `language` fields are not touched by the
source.  Python mutates in place and raises at the first entry whose time
string fails to parse; the embedding returns `none` in that case. -/
def transcriptionOffset (t : Transcription) (offset_ms offset_index : Int) : Option Transcription :=
  (offsetEntries offset_ms offset_index t.subtitles).map (fun subs => { t with subtitles := subs })

/-! ## SRT parsing: `Transcription.from_srt` (src/models.py lines 131-161)

`from_srt` runs
`re.findall(r'(\d+)\n(\d{2}:\d{2}:\d{2},\d{3}) --> (\d{2}:\d{2}:\d{2},\d{3})\n(.+?)(?=\n\n|\Z)', srt_content.strip() + '\n\n', re.DOTALL)`.
`findall` scans left to right, at each position attempting a match; on
success it records the groups and resumes after the match, otherwise it
advances one character.  For this pattern backtracking inside `\d+` can
never help (shortening the digit run leaves a digit where `\n` is
required), so the scanner below, which takes the maximal digit run, is
equivalent.  The lazy group `(.+?)(?=\n\n|\Z)` takes the shortest non-empty
text (with `.` matching newlines under `DOTALL`) whose end is followed by a
blank line or the end of the input. -/

/-- Python `str.strip()` whitespace characters. -/
def isPyWs (c : Char) : Bool :=
  c = ' ' || c = '\t' || c = '\n' || c = '\r' || c = '\x0b' || c = '\x0c'

/-- Python `str.strip()` on a character list. -/
def pyStrip (l : List Char) : List Char :=
  ((l.dropWhile isPyWs).reverse.dropWhile isPyWs).reverse

/-- Match `\d{2}:\d{2}:\d{2},\d{3}` at the head, returning the twelve
matched characters and the remainder. -/
def matchTsChars : List Char → Option (List Char × List Char)
  | c0 :: c1 :: ':' :: c3 :: c4 :: ':' :: c6 :: c7 :: ',' :: c9 :: c10 :: c11 :: rest =>
    if c0.isDigit && c1.isDigit && c3.isDigit && c4.isDigit && c6.isDigit &&
        c7.isDigit && c9.isDigit && c10.isDigit && c11.isDigit then
      some ([c0, c1, ':', c3, c4, ':', c6, c7, ',', c9, c10, c11], rest)
    else none
  | _ => none

/-- Match the lazy `(.+?)(?=\n\n|\Z)` group: the shortest non-empty prefix
whose end is followed by `"\n\n"` or by the end of the input. -/
def lazyDotText : List Char → Option (List Char × List Char)
  | [] => none
  | c :: rest =>
    if (match rest with | '\n' :: '\n' :: _ => true | [] => true | _ => false) then
      some ([c], rest)
    else
      (lazyDotText rest).map (fun p => (c :: p.1, p.2))

/-- Attempt to match one SRT block of the `findall` pattern at the head of
the input, returning the four groups (index digits, two timestamps, text)
and the remainder after the match. -/
def matchBlockAt (l : List Char) : Option ((List Char × List Char × List Char × List Char) × List Char) :=
  let ds := l.takeWhile Char.isDigit
  if ds.isEmpty then none else
  match l.dropWhile Char.isDigit with
  | '\n' :: r2 =>
    match matchTsChars r2 with
    | some (t1, ' ' :: '-' :: '-' :: '>' :: ' ' :: r3) =>
      match matchTsChars r3 with
      | some (t2, '\n' :: r4) =>
        match lazyDotText r4 with
        | some (txt, rest) => some ((ds, t1, t2, txt), rest)
        | none => none
      | _ => none
    | _ => none
  | _ => none

/-- The `re.findall` scan: try a match at every position, left to right,
resuming after each successful match.  `fuel` bounds the number of steps;
every step consumes at least one character, so `l.length + 1` is always
enough. -/
def findAllBlocks : Nat → List Char → List (List Char × List Char × List Char × List Char)
  | 0, _ => []
  | _ + 1, [] => []
  | fuel + 1, c :: rest =>
    match matchBlockAt (c :: rest) with
    | some (g, rem) => g :: findAllBlocks fuel rem
    | none => findAllBlocks fuel rest

/-- Numeric value of a digit string, as Python `int` on it. -/
def digitsToNat (l : List Char) : Nat :=
  l.foldl (fun a c => 10 * a + digitVal c) 0

/-- `Transcription.from_srt`: parse SRT content into a `Transcription` with
the given `end_time` tag.  `end_index` is the last entry's index, or `0`
when no block matched. -/
def fromSrt (srt_content : String) (end_time : Int) : Transcription :=
  let chars := pyStrip srt_content.data ++ ['\n', '\n']
  let blocks := findAllBlocks (chars.length + 1) chars
  let subs := blocks.map (fun g =>
    { index := (digitsToNat g.1 : Int)
      start_time := String.mk g.2.1
      end_time := String.mk g.2.2.1
      text := String.mk (pyStrip g.2.2.2)
      translation := none : SubtitleEntry })
  { subtitles := subs
    end_time := end_time
    end_index := match subs.getLast? with | some e => e.index | none => 0
    language := none }

/-! ## `process_transcription` (src/utils/process_trancsription.py lines 38-68)

The function iterates over the sorted `.srt` files of a directory; each
file's content is parsed with `from_srt`, tagged with the integer parsed
from the trailing `_`-separated field of its stem (the chunk's absolute
start offset written by `preprocess_audio`).  We model the directory as the
ordered list of `(tag, content)` pairs.  For every file after the first
non-empty state, the freshly parsed transcription is offset by the combined
transcription's current `end_time`/`end_index`; then its entries are
appended and the combined `end_time`/`end_index` are overwritten with the
parsed transcription's own (un-offset) `end_time` and `end_index`. -/

def processTranscription (files : List (Int × String)) : Option Transcription :=
  files.foldlM
    (fun combined file =>
      let t := fromSrt file.2 file.1
      if combined.subtitles.isEmpty then
        some { subtitles := combined.subtitles ++ t.subtitles
               end_time := t.end_time
               end_index := t.end_index
               language := combined.language }
      else
        (transcriptionOffset t combined.end_time combined.end_index).map (fun t2 =>
          { subtitles := combined.subtitles ++ t2.subtitles
            end_time := t2.end_time
            end_index := t2.end_index
            language := combined.language }))
    { subtitles := [], end_time := 0, end_index := 0, language := none }

/-! ## `chunk_audio` (src/utils/preprocess_audio.py lines 10-61)

The audio stream is abstracted by its length `D` in milliseconds; a slice
`audio[a:b]` is represented by the pair `(a, min b D)` of its bounds (pydub
slicing clamps at the end of the audio, and `audio[a:]` is `(a, D)`).
`detect_silence` is external; its result is the `silences` parameter, a
list of `(start, end)` intervals inside the audio.  Line 35 maps them to
midpoints `(start + end) // 2`.  The `while` loop is embedded with fuel;
each iteration emits one chunk, and under the preconditions of the theorems
below every iteration advances `start` by at least one, so fuel `D + 1`
never runs out.  The comparison `window_start <= s` is on Python ints where
`window_start` may be negative; for `s : Nat` the truncated subtraction
`ideal - F` gives the same outcome. -/

/-- Python `min(candidates, key=...)` given a first element and the rest:
the fold keeps the earliest element with minimal key. -/
def pyMinBy (key : Nat → Nat) (x : Nat) (xs : List Nat) : Nat :=
  xs.foldl (fun b y => if key y < key b then y else b) x

/-- The cut point chosen by one iteration of the `chunk_audio` loop: the
silence midpoint inside `[ideal_end - F, ideal_end + F]` closest to
`ideal_end = start + T` (the earliest on a tie, as Python `min`), or
`ideal_end` itself when no candidate exists. -/
def chunkCut (T F : Nat) (mids : List Nat) (start : Nat) : Nat :=
  match mids.filter (fun s => start + T - F ≤ s && s ≤ start + T + F) with
  | [] => start + T
  | c :: cs => pyMinBy (fun s => Nat.dist s (start + T)) c cs

/-- The `while start < len(audio)` loop of `chunk_audio`. -/
def chunkLoop (D T F : Nat) (mids : List Nat) : Nat → Nat → List (Nat × Nat)
  | 0, _ => []
  | fuel + 1, start =>
    if start < D then
      if D ≤ start + T then
        [(start, D)]
      else
        (start, min (chunkCut T F mids start) D) ::
          chunkLoop D T F mids fuel (chunkCut T F mids start)
    else []

/-- `chunk_audio` with explicit flexibility `F`: chunks of the interval
`[0, D)` cut near multiples of `T`, preferring silence midpoints. -/
def chunkAudio (D T F : Nat) (silences : List (Nat × Nat)) : List (Nat × Nat) :=
  chunkLoop D T F (silences.map (fun p => (p.1 + p.2) / 2)) (D + 1) 0

/-- `chunk_audio` with the default flexibility `target_chunk_duration_ms // 5`
(src/utils/preprocess_audio.py line 29). -/
def chunkAudioDefault (D T : Nat) (silences : List (Nat × Nat)) : List (Nat × Nat) :=
  chunkAudio D T (T / 5) silences

/-- Whether a chunk list exactly covers `[a, d)` in order: each chunk
starts where the previous ended, is non-empty, and the last ends at `d`. -/
def coversB : Nat → Nat → List (Nat × Nat) → Bool
  | a, d, [] => a == d
  | a, d, (s, e) :: rest => (s == a) && decide (a < e) && coversB e d rest

/-! ## Batch translation (src/models.py lines 198-289)

`translate_subtitles` walks the entries with `for i in range(0, n,
batch_size)` and builds, per window, three `{'id', 'text'}` lists: previous
context, the batch itself, and next context.  The network call and prompt
are external; the embedding covers the construction of the three lists per
window and the reconciliation of a parsed response (`FullTranslation`,
a list of `Translation`) back onto the entries of a window. -/

/-- `Translation` (src/models.py lines 8-13). -/
structure Translation where
  id : Int
  text : String
deriving DecidableEq, Repr

/-- One `{'id': sub.index, 'text': sub.text}` record. -/
structure IdText where
  id : Int
  text : String
deriving DecidableEq, Repr

/-- `IdText` of an entry. -/
def toIdText (e : SubtitleEntry) : IdText := ⟨e.index, e.text⟩

/-- Python slice `l[a:b]` for `0 ≤ a, b`. -/
def pySlice (l : List α) (a b : Nat) : List α := (l.drop a).take (b - a)

/-- The number of windows of `for i in range(0, n, bs)` for `bs ≥ 1`:
`⌈n / bs⌉`. -/
def numWindows (n bs : Nat) : Nat := (n + bs - 1) / bs

/-- The three context/batch lists built for the window starting at entry
position `i` (src/models.py lines 208-230): `previous_context` is
`subs[max(0, i - overlap) : i]` when `i > 0` (`i - ov` is truncated
subtraction, i.e. `max(0, i - overlap)`), the batch is
`subs[i : i + batch_size]`, and `next_context` is
`subs[i + batch_size : min(n, i + batch_size + overlap)]` when
`i + batch_size < n`; each is mapped to its `{'id', 'text'}` records. -/
def buildRequest (subs : List SubtitleEntry) (bs ov i : Nat) :
    List IdText × List IdText × List IdText :=
  ((if 0 < i then pySlice subs (i - ov) i else []).map toIdText,
   (pySlice subs i (i + bs)).map toIdText,
   (if i + bs < subs.length then pySlice subs (i + bs) (min subs.length (i + bs + ov))
    else []).map toIdText)

/-- All translation requests issued by `translate_subtitles`: one per
window `i = 0, bs, 2·bs, …` below `subs.length`. -/
def translationRequests (subs : List SubtitleEntry) (bs ov : Nat) :
    List (List IdText × List IdText × List IdText) :=
  (List.range (numWindows subs.length bs)).map (fun k => buildRequest subs bs ov (k * bs))

/-- `Transcription._get_elem_by_id` (src/models.py lines 274-289): first
response element with the given id. -/
def getElemById : List Translation → Int → Option Translation
  | [], _ => none
  | t :: rest, i => if t.id = i then some t else getElemById rest i

/-- The reconciliation loop of `translate_subtitles` (src/models.py lines
264-272) on one window: every entry found in the response gets the returned
text, every other entry gets the empty string (with a printed warning in
the source; no exception is raised either way). -/
def applyTranslations (batch : List SubtitleEntry) (resp : List Translation) :
    List SubtitleEntry :=
  batch.map (fun sub =>
    match getElemById resp sub.index with
    | some tr => { sub with translation := some tr.text }
    | none => { sub with translation := some "" })

/-- Pairwise disjointness of the ids of the three parts of a request. -/
def disjointParts (r : List IdText × List IdText × List IdText) : Bool :=
  let pids := r.1.map IdText.id
  let mids := r.2.1.map IdText.id
  let qids := r.2.2.map IdText.id
  pids.all (fun x => !decide (x ∈ mids) && !decide (x ∈ qids)) &&
    mids.all (fun x => !decide (x ∈ qids))

/-! ## Concrete SRT fixtures

`srtA` covers `[0, 5000)` ms with indices 1–3, `srtB` covers `[0, 3000)` ms
with indices 1–2 (the spec's reconciliation example, segment B's chunk
starting at absolute offset 5000 ms), and `srtC` is a third segment with
indices 1–2.  `srtHeaderBad` contains a block whose header line is
malformed (`00:00:01` lacks the `,mmm` field), and `srtMixed` has a
malformed block between two well-formed ones, the last with two text
lines. -/

def srtA : String :=
  "1\n00:00:00,000 --> 00:00:01,000\nHello\n\n2\n00:00:01,000 --> 00:00:02,000\nWorld\n\n3\n00:00:02,000 --> 00:00:04,500\nAgain\n"

def srtB : String :=
  "1\n00:00:00,500 --> 00:00:01,500\nFoo\n\n2\n00:00:01,500 --> 00:00:02,500\nBar\n"

def srtC : String :=
  "1\n00:00:00,000 --> 00:00:01,000\nBaz\n\n2\n00:00:01,000 --> 00:00:02,000\nQux\n"

def srtHeaderBad : String :=
  "1\n00:00:00,000 --> 00:00:01,000\nHello\n\n2\n00:00:01 --> 00:00:02,000\nWorld\n"

def srtMixed : String :=
  "1\n00:00:00,000 --> 00:00:01,000\nHello\n\n2\n00:00:01 --> 00:00:02,000\nBad\n\n3\n00:00:02,000 --> 00:00:03,000\nLine1\nLine2\n"

/-- Parsed start times of the combined entries, for stating monotonicity of
the resulting timeline. -/
def startMsList (t : Transcription) : List Int :=
  t.subtitles.map (fun e => (tsParse e.start_time).getD (-1))

/-- Whether a list of integers is non-decreasing. -/
def nonDecB : List Int → Bool
  | [] => true
  | [_] => true
  | a :: b :: r => decide (a ≤ b) && nonDecB (b :: r)

/-- C1: the claim states that every entry of each subsequent segment is
shifted by that segment's own absolute start offset, so segment B (tagged
5000 ms) would start at ≥ 5000 ms.  The code instead shifts each segment by
the offset recorded for the *previous* segment: after segment A the
combined `end_time` is A's tag `0`, so B's entries are shifted by 0 ms and
keep their local start times `500`/`1500` ms, below 5000 ms.  This theorem
evaluates `process_transcription` on exactly the spec's example. -/
theorem processTranscription_shifts_by_previous_tag :
    (processTranscription [(0, srtA), (5000, srtB)]).map
        (fun t => t.subtitles.map (fun e => (e.index, e.start_time))) =
      some [(1, "00:00:00,000"), (2, "00:00:01,000"), (3, "00:00:02,000"),
            (4, "00:00:00,500"), (5, "00:00:01,500")] := by
  decide

/-- C2: the claim states the combined transcript has indices exactly
`1..M` strictly increasing and non-decreasing start times, for any `N ≥ 1`
well-formed segments.  On two well-formed segments the combined start
times are `[0, 1000, 2000, 500, 1500]` ms, which is not non-decreasing,
and on three segments the indices are `[1, 2, 3, 4, 5, 3, 4]`, which
collide: the code shifts each segment by the previous segment's tag and
last own index instead of the running totals. -/
theorem processTranscription_not_monotone :
    (processTranscription [(0, srtA), (5000, srtB)]).map
        (fun t => (startMsList t, t.subtitles.map SubtitleEntry.index)) =
      some ([0, 1000, 2000, 500, 1500], [1, 2, 3, 4, 5]) ∧
    nonDecB [0, 1000, 2000, 500, 1500] = false ∧
    (processTranscription [(0, srtA), (5000, srtB), (8000, srtC)]).map
        (fun t => t.subtitles.map SubtitleEntry.index) =
      some [1, 2, 3, 4, 5, 3, 4] := by
  refine ⟨by decide, by decide, by decide⟩

/-- C3: the claim states a zero-entry segment advances the cumulative end
time by its duration and leaves the cumulative last index unchanged.  In
the code, parsing an empty segment yields `end_index = 0`, and the
combined `end_index` is overwritten with it, so the next segment's indices
are shifted by 0 (not by the unchanged value 3): the result repeats
indices `1, 2`.  The combined `end_time` after the empty segment is the
empty segment's tag `5000`, the sum of the durations of the segments
before it, not advanced by the empty segment's own duration. -/
theorem processTranscription_empty_segment_resets_index :
    (processTranscription [(0, srtA), (5000, ""), (8000, srtC)]).map
        (fun t => t.subtitles.map SubtitleEntry.index) =
      some [1, 2, 3, 1, 2] ∧
    (processTranscription [(0, srtA), (5000, "")]).map
        (fun t => (t.end_index, t.end_time)) =
      some (0, 5000) := by
  refine ⟨by decide, by decide⟩

/-- C7 counterexample: the claim states parsing input containing a
malformed header line fails with a `FormatError` and never silently yields
a partial result.  `from_srt` raises nothing: `re.findall` simply skips
the malformed second block, and the parse silently returns only the first
block. -/
theorem fromSrt_malformed_silently_dropped :
    (fromSrt srtHeaderBad 0).subtitles.map (fun e => (e.index, e.text)) = [(1, "Hello")] ∧
    (fromSrt srtHeaderBad 0).subtitles.length = 1 := by
  refine ⟨by decide, by decide⟩

/-- C7 amended: parsing never fails; blocks whose header line does not
match `HH:MM:SS,mmm --> HH:MM:SS,mmm` are silently skipped and omitted
from the result, while well-formed blocks — including blocks with
multi-line text — are parsed, so a malformed block yields a partial
result.  Demonstrated on a fully well-formed input and on an input whose
middle block is malformed. -/
theorem fromSrt_skips_malformed_blocks :
    (fromSrt srtA 0).subtitles.map (fun e => (e.index, e.text)) =
      [(1, "Hello"), (2, "World"), (3, "Again")] ∧
    (fromSrt srtMixed 0).subtitles.map (fun e => (e.index, e.text)) =
      [(1, "Hello"), (3, "Line1\nLine2")] ∧
    (fromSrt srtMixed 0).end_index = 3 := by
  refine ⟨by decide, by decide, by decide⟩

/-- C8: in the translated-language variant an entry with no translation
(`None` or the empty string) renders its original text, and in the
bilingual variant an entry with a non-empty translation renders the
original line followed by the translated line while an entry with no
translation renders the original text only, with no blank second line. -/
theorem toSrtBlock_translation_fallback (e : SubtitleEntry) :
    (e.translation = none ∨ e.translation = some "" →
      toSrtBlock e true false = srtHeader e ++ e.text ++ "\n" ∧
      toSrtBlock e false true = srtHeader e ++ e.text ++ "\n") ∧
    (∀ s, e.translation = some s → s ≠ "" →
      toSrtBlock e false true = srtHeader e ++ e.text ++ "\n" ++ s ++ "\n") := by
  constructor
  · rintro (h | h) <;> simp [toSrtBlock, strTruthy, h]
  · intro s hs hne
    simp [toSrtBlock, strTruthy, hs, hne, String.append_assoc]

def entryHello : SubtitleEntry := ⟨1, "00:00:00,000", "00:00:01,000", "Hello", none⟩

def entryNihao : SubtitleEntry := ⟨2, "00:00:01,000", "00:00:02,000", "Hello", some "Nihao"⟩

/-- C8 witness: the fallback equalities evaluated on one entry without a
translation and one with a non-empty translation. -/
theorem toSrtBlock_translation_fallback_witness :
    (toSrtBlock entryHello true false = srtHeader entryHello ++ entryHello.text ++ "\n" ∧
     toSrtBlock entryHello false true = srtHeader entryHello ++ entryHello.text ++ "\n") ∧
    toSrtBlock entryNihao false true =
      srtHeader entryNihao ++ entryNihao.text ++ "\n" ++ "Nihao" ++ "\n" :=
  ⟨(toSrtBlock_translation_fallback entryHello).1 (Or.inl rfl),
   (toSrtBlock_translation_fallback entryNihao).2 "Nihao" rfl (by decide)⟩

/-! ## C9: timestamp parse/format roundtrip -/

/-- The canonical `HH:MM:SS,mmm` strings: statement apparatus quantifying
over all strings with two-digit hour/minute/second fields and a three-digit
millisecond field whose values are `hh`, `mi`, `s`, `ms`. -/
def tsCanonical (hh mi s ms : Nat) : String :=
  String.mk [digitChar (hh / 10), digitChar (hh % 10), ':',
             digitChar (mi / 10), digitChar (mi % 10), ':',
             digitChar (s / 10), digitChar (s % 10), ',',
             digitChar (ms / 100), digitChar ((ms / 10) % 10), digitChar (ms % 10)]

lemma digitChar_isDigit {d : Nat} (h : d ≤ 9) : (digitChar d).isDigit = true := by
  interval_cases d <;> decide

lemma digitVal_digitChar {d : Nat} (h : d ≤ 9) : digitVal (digitChar d) = d := by
  interval_cases d <;> decide

lemma string_mk_append (a b : List Char) : String.mk a ++ String.mk b = String.mk (a ++ b) := rfl

lemma natDigitsAux_small {fuel m : Nat} (hm : m < 10) (hf : 1 ≤ fuel) :
    natDigitsAux fuel m = [digitChar m] := by
  cases fuel with
  | zero => omega
  | succ f => simp [natDigitsAux, hm]

lemma natDigits_small {n : Nat} (h : n < 10) : natDigits n = [digitChar n] :=
  natDigitsAux_small h (by omega)

lemma natDigits_two_digit {n : Nat} (h1 : 10 ≤ n) (h2 : n ≤ 99) :
    natDigits n = [digitChar (n / 10), digitChar (n % 10)] := by
  unfold natDigits natDigitsAux
  rw [if_neg (by omega)]
  rw [natDigitsAux_small (by omega) (by omega)]
  simp

lemma natDigits_three_digit {n : Nat} (h1 : 100 ≤ n) (h2 : n ≤ 999) :
    natDigits n = [digitChar (n / 100), digitChar ((n / 10) % 10), digitChar (n % 10)] := by
  obtain ⟨m, rfl⟩ : ∃ m, n = m + 1 := ⟨n - 1, by omega⟩
  unfold natDigits natDigitsAux
  rw [if_neg (by omega)]
  show natDigitsAux (m + 1) ((m + 1) / 10) ++ _ = _
  unfold natDigitsAux
  rw [if_neg (by omega)]
  rw [Nat.div_div_eq_div_mul]
  rw [natDigitsAux_small (by omega) (by omega)]
  simp

lemma intStr_ofNat (n : Nat) : intStr (n : Int) = String.mk (natDigits n) := by
  unfold intStr
  rw [if_neg (by omega)]
  norm_num

lemma padInt2_ofNat {n : Nat} (h : n ≤ 99) :
    padInt2 (n : Int) = String.mk [digitChar (n / 10), digitChar (n % 10)] := by
  unfold padInt2
  by_cases hn : n < 10
  · rw [if_pos ⟨by omega, by exact_mod_cast hn⟩, intStr_ofNat, natDigits_small hn]
    have hd : n / 10 = 0 := by omega
    have hm : n % 10 = n := by omega
    rw [hd, hm]
    rfl
  · rw [if_neg (by omega), intStr_ofNat, natDigits_two_digit (by omega) h]

lemma padInt3_ofNat {n : Nat} (h : n ≤ 999) :
    padInt3 (n : Int) = String.mk [digitChar (n / 100), digitChar ((n / 10) % 10), digitChar (n % 10)] := by
  unfold padInt3
  by_cases h1 : n < 10
  · rw [if_pos ⟨by omega, by exact_mod_cast h1⟩, intStr_ofNat, natDigits_small h1]
    have e1 : n / 100 = 0 := by omega
    have e2 : (n / 10) % 10 = 0 := by omega
    have e3 : n % 10 = n := by omega
    rw [e1, e2, e3]
    rfl
  · by_cases h2 : n < 100
    · rw [if_neg (by omega), if_pos ⟨by omega, by exact_mod_cast h2⟩,
        intStr_ofNat, natDigits_two_digit (by omega) (by omega)]
      have e1 : n / 100 = 0 := by omega
      have e2 : n / 10 % 10 = n / 10 := by omega
      rw [e1, e2]
      rfl
    · rw [if_neg (by omega), if_neg (by omega),
        intStr_ofNat, natDigits_three_digit (by omega) h]

lemma tsToString_eq (n : Int) :
    tsToString n = padInt2 (n / (1000 * 3600)) ++ ":" ++ padInt2 ((n / (1000 * 60)) % 60) ++ ":" ++
      padInt2 ((n / 1000) % 60) ++ "," ++ padInt3 (n % 1000) := rfl

lemma tsToString_ofNat {hh mi s ms : Nat}
    (h1 : hh ≤ 99) (h2 : mi ≤ 59) (h3 : s ≤ 59) (h4 : ms ≤ 999) :
    tsToString (((hh * 3600 + mi * 60 + s) * 1000 + ms : Nat) : Int) =
      tsCanonical hh mi s ms := by
  have eMs : (((hh * 3600 + mi * 60 + s) * 1000 + ms : Nat) : Int) % 1000 = (ms : Int) := by
    omega
  have eS : ((((hh * 3600 + mi * 60 + s) * 1000 + ms : Nat) : Int) / 1000) % 60
      = (s : Int) := by omega
  have eMi : ((((hh * 3600 + mi * 60 + s) * 1000 + ms : Nat) : Int) / (1000 * 60)) % 60
      = (mi : Int) := by omega
  have eHr : (((hh * 3600 + mi * 60 + s) * 1000 + ms : Nat) : Int) / (1000 * 3600)
      = (hh : Int) := by omega
  rw [tsToString_eq, eMs, eS, eMi, eHr, padInt2_ofNat h1, padInt2_ofNat (by omega : mi ≤ 99),
    padInt2_ofNat (by omega : s ≤ 99), padInt3_ofNat h4]
  rfl

lemma tsParseChars_at (c0 c1 c3 c4 c6 c7 c9 c10 c11 : Char) (rest : List Char) :
    tsParseChars (c0 :: c1 :: ':' :: c3 :: c4 :: ':' :: c6 :: c7 :: ',' :: c9 :: c10 :: c11 :: rest) =
      if c0.isDigit && c1.isDigit && c3.isDigit && c4.isDigit && c6.isDigit &&
          c7.isDigit && c9.isDigit && c10.isDigit && c11.isDigit then
        some ((((10 * digitVal c0 + digitVal c1) * 3600 + (10 * digitVal c3 + digitVal c4) * 60 +
            (10 * digitVal c6 + digitVal c7)) * 1000 +
            (100 * digitVal c9 + 10 * digitVal c10 + digitVal c11) : Nat) : Int)
      else none := rfl

lemma tsParse_canonical {hh mi s ms : Nat}
    (h1 : hh ≤ 99) (h2 : mi ≤ 59) (h3 : s ≤ 59) (h4 : ms ≤ 999) :
    tsParse (tsCanonical hh mi s ms) =
      some (((hh * 3600 + mi * 60 + s) * 1000 + ms : Nat) : Int) := by
  show tsParseChars (digitChar (hh / 10) :: digitChar (hh % 10) :: ':' ::
      digitChar (mi / 10) :: digitChar (mi % 10) :: ':' ::
      digitChar (s / 10) :: digitChar (s % 10) :: ',' ::
      digitChar (ms / 100) :: digitChar ((ms / 10) % 10) :: digitChar (ms % 10) :: []) = _
  rw [tsParseChars_at]
  rw [if_pos]
  · rw [digitVal_digitChar (by omega), digitVal_digitChar (by omega),
      digitVal_digitChar (by omega), digitVal_digitChar (by omega),
      digitVal_digitChar (by omega), digitVal_digitChar (by omega),
      digitVal_digitChar (by omega), digitVal_digitChar (by omega),
      digitVal_digitChar (by omega)]
    have ehh : 10 * (hh / 10) + hh % 10 = hh := by omega
    have emi : 10 * (mi / 10) + mi % 10 = mi := by omega
    have es : 10 * (s / 10) + s % 10 = s := by omega
    have ems : 100 * (ms / 100) + 10 * (ms / 10 % 10) + ms % 10 = ms := by omega
    rw [ehh, emi, es, ems]
  · simp only [digitChar_isDigit (by omega : hh / 10 ≤ 9),
      digitChar_isDigit (by omega : hh % 10 ≤ 9),
      digitChar_isDigit (by omega : mi / 10 ≤ 9), digitChar_isDigit (by omega : mi % 10 ≤ 9),
      digitChar_isDigit (by omega : s / 10 ≤ 9), digitChar_isDigit (by omega : s % 10 ≤ 9),
      digitChar_isDigit (by omega : ms / 100 ≤ 9),
      digitChar_isDigit (by omega : ms / 10 % 10 ≤ 9),
      digitChar_isDigit (by omega : ms % 10 ≤ 9), Bool.and_true, Bool.true_and]

/-- C9 counterexample: `"00:60:00,000"` has zero-padded two-digit hour,
minute and second fields and a three-digit millisecond field, but parsing
it and formatting the result yields `"01:00:00,000"`, not the original
string: parse-then-format is not the identity on all such strings. -/
theorem tsParse_format_not_identity :
    (tsParse "00:60:00,000").map tsToString = some "01:00:00,000" ∧
    ("01:00:00,000" : String) ≠ "00:60:00,000" := by
  refine ⟨by decide, by decide⟩

/-- C9 amended: for every `HH:MM:SS,mmm` string whose minute and second
fields are below 60 (with any two-digit hour and three-digit millisecond
field), parsing with `Timestamp._parse` and formatting with
`Timestamp.__str__` is the identity. -/
theorem tsParse_tsToString_roundtrip (hh mi s ms : Nat)
    (h1 : hh ≤ 99) (h2 : mi ≤ 59) (h3 : s ≤ 59) (h4 : ms ≤ 999) :
    (tsParse (tsCanonical hh mi s ms)).map tsToString = some (tsCanonical hh mi s ms) := by
  rw [tsParse_canonical h1 h2 h3 h4]
  show some (tsToString (((hh * 3600 + mi * 60 + s) * 1000 + ms : Nat) : Int)) = _
  exact congrArg some (tsToString_ofNat h1 h2 h3 h4)

/-- C9 witness: the roundtrip at `"01:02:03,045"`. -/
theorem tsParse_tsToString_roundtrip_witness :
    (1 ≤ 99 ∧ 2 ≤ 59 ∧ 3 ≤ 59 ∧ 45 ≤ 999) ∧
    (tsParse (tsCanonical 1 2 3 45)).map tsToString = some (tsCanonical 1 2 3 45) :=
  ⟨by omega, tsParse_tsToString_roundtrip 1 2 3 45 (by omega) (by omega) (by omega) (by omega)⟩

/-! ## C6: reconciliation of translation responses -/

lemma getElemById_eq_some {resp : List Translation} {tr : Translation} {i : Int}
    (hn : (resp.map Translation.id).Nodup) (hmem : tr ∈ resp) (hid : tr.id = i) :
    getElemById resp i = some tr := by
  induction resp with
  | nil => cases hmem
  | cons t rest ih =>
    rw [List.map_cons, List.nodup_cons] at hn
    rcases List.mem_cons.mp hmem with rfl | hmem2
    · simp [getElemById, hid]
    · have hne : t.id ≠ i := by
        intro he
        exact hn.1 (by
          rw [he, ← hid]
          exact List.mem_map_of_mem Translation.id hmem2)
      simp only [getElemById, if_neg hne]
      exact ih hn.2 hmem2

lemma getElemById_eq_none {resp : List Translation} {i : Int}
    (h : ∀ tr ∈ resp, tr.id ≠ i) : getElemById resp i = none := by
  induction resp with
  | nil => rfl
  | cons t rest ih =>
    simp only [getElemById, if_neg (h t (List.mem_cons_self t rest))]
    exact ih (fun tr htr => h tr (List.mem_cons_of_mem t htr))

lemma getElemById_perm {resp resp2 : List Translation} (i : Int)
    (hp : resp.Perm resp2) (hn : (resp.map Translation.id).Nodup) :
    getElemById resp2 i = getElemById resp i := by
  have hn2 : (resp2.map Translation.id).Nodup := ((hp.map Translation.id).nodup_iff).mp hn
  by_cases hex : ∃ tr ∈ resp, tr.id = i
  · obtain ⟨tr, hmem, hid⟩ := hex
    rw [getElemById_eq_some hn hmem hid, getElemById_eq_some hn2 (hp.mem_iff.mp hmem) hid]
  · push_neg at hex
    rw [getElemById_eq_none hex,
      getElemById_eq_none (fun tr htr => hex tr (hp.mem_iff.mpr htr))]

/-- Default entry for position-indexed statements. -/
def dfltEntry : SubtitleEntry := ⟨0, "", "", "", none⟩

/-- C6: for every window and every translation response with unique ids,
reconciliation sets the translation of each entry whose id appears in the
response to the returned text — matched purely by id, so any permutation of
the response produces the same result — and sets the translation of each
entry whose id is absent to the empty string; no other field changes and no
exception is raised (the reconciliation is total). -/
theorem applyTranslations_spec (batch : List SubtitleEntry) (resp : List Translation)
    (hn : (resp.map Translation.id).Nodup) :
    (applyTranslations batch resp).length = batch.length ∧
    (∀ resp2, resp.Perm resp2 → applyTranslations batch resp2 = applyTranslations batch resp) ∧
    (∀ k, k < batch.length →
      ((applyTranslations batch resp).getD k dfltEntry).index = (batch.getD k dfltEntry).index ∧
      ((applyTranslations batch resp).getD k dfltEntry).start_time
        = (batch.getD k dfltEntry).start_time ∧
      ((applyTranslations batch resp).getD k dfltEntry).end_time
        = (batch.getD k dfltEntry).end_time ∧
      ((applyTranslations batch resp).getD k dfltEntry).text = (batch.getD k dfltEntry).text ∧
      (∀ tr ∈ resp, tr.id = (batch.getD k dfltEntry).index →
        ((applyTranslations batch resp).getD k dfltEntry).translation = some tr.text) ∧
      ((∀ tr ∈ resp, tr.id ≠ (batch.getD k dfltEntry).index) →
        ((applyTranslations batch resp).getD k dfltEntry).translation = some "")) := by
  refine ⟨by simp [applyTranslations], ?_, ?_⟩
  · intro resp2 hp
    unfold applyTranslations
    exact List.map_congr_left (fun sub _ => by rw [getElemById_perm sub.index hp hn])
  · intro k hk
    have hk2 : k < (applyTranslations batch resp).length := by
      simpa [applyTranslations] using hk
    have key : (applyTranslations batch resp).getD k dfltEntry =
        (match getElemById resp (batch.getD k dfltEntry).index with
         | some tr => { batch.getD k dfltEntry with translation := some tr.text }
         | none => { batch.getD k dfltEntry with translation := some "" }) := by
      rw [List.getD_eq_getElem _ _ hk2, List.getD_eq_getElem _ _ hk]
      simp only [applyTranslations, List.getElem_map]
    refine ⟨?_, ?_, ?_, ?_, ?_, ?_⟩
    · rw [key]; cases getElemById resp (batch.getD k dfltEntry).index <;> rfl
    · rw [key]; cases getElemById resp (batch.getD k dfltEntry).index <;> rfl
    · rw [key]; cases getElemById resp (batch.getD k dfltEntry).index <;> rfl
    · rw [key]; cases getElemById resp (batch.getD k dfltEntry).index <;> rfl
    · intro tr htr hid
      rw [key, getElemById_eq_some hn htr hid]
    · intro habs
      rw [key, getElemById_eq_none habs]

def batchW : List SubtitleEntry :=
  [⟨1, "00:00:00,000", "00:00:01,000", "one", none⟩,
   ⟨2, "00:00:01,000", "00:00:02,000", "two", none⟩,
   ⟨3, "00:00:02,000", "00:00:03,000", "three", none⟩]

def respW : List Translation := [⟨2, "dos"⟩, ⟨1, "uno"⟩]

/-- C6 witness: a three-entry window against a response that returns ids
2 and 1 out of order and omits id 3. -/
theorem applyTranslations_spec_witness :
    (respW.map Translation.id).Nodup ∧
    ((applyTranslations batchW respW).length = batchW.length ∧
     (∀ resp2, respW.Perm resp2 → applyTranslations batchW resp2 = applyTranslations batchW respW) ∧
     (∀ k, k < batchW.length →
       ((applyTranslations batchW respW).getD k dfltEntry).index
         = (batchW.getD k dfltEntry).index ∧
       ((applyTranslations batchW respW).getD k dfltEntry).start_time
         = (batchW.getD k dfltEntry).start_time ∧
       ((applyTranslations batchW respW).getD k dfltEntry).end_time
         = (batchW.getD k dfltEntry).end_time ∧
       ((applyTranslations batchW respW).getD k dfltEntry).text
         = (batchW.getD k dfltEntry).text ∧
       (∀ tr ∈ respW, tr.id = (batchW.getD k dfltEntry).index →
         ((applyTranslations batchW respW).getD k dfltEntry).translation = some tr.text) ∧
       ((∀ tr ∈ respW, tr.id ≠ (batchW.getD k dfltEntry).index) →
         ((applyTranslations batchW respW).getD k dfltEntry).translation = some ""))) :=
  ⟨by decide, applyTranslations_spec batchW respW (by decide)⟩

/-! ## C10: frame effect of `Transcription.offset` -/

lemma subtitleOffset_eq {e : SubtitleEntry} {a b : Int} (dms : Int)
    (ha : tsParse e.start_time = some a) (hb : tsParse e.end_time = some b) :
    subtitleOffset e dms =
      some { e with start_time := tsToString (a + dms), end_time := tsToString (b + dms) } := by
  unfold subtitleOffset
  rw [ha, hb]

lemma offsetEntries_spec (dms di : Int) (l : List SubtitleEntry)
    (h : ∀ e ∈ l, (tsParse e.start_time).isSome ∧ (tsParse e.end_time).isSome) :
    ∃ l2, offsetEntries dms di l = some l2 ∧
      l2.length = l.length ∧
      ∀ k, k < l.length →
        (l2.getD k dfltEntry).text = (l.getD k dfltEntry).text ∧
        (l2.getD k dfltEntry).translation = (l.getD k dfltEntry).translation ∧
        (l2.getD k dfltEntry).index = (l.getD k dfltEntry).index + di ∧
        ∀ a b, tsParse (l.getD k dfltEntry).start_time = some a →
          tsParse (l.getD k dfltEntry).end_time = some b →
          (l2.getD k dfltEntry).start_time = tsToString (a + dms) ∧
          (l2.getD k dfltEntry).end_time = tsToString (b + dms) := by
  induction l with
  | nil =>
    refine ⟨[], rfl, rfl, ?_⟩
    intro k hk
    simp at hk
  | cons e rest ih =>
    obtain ⟨ha2, hb2⟩ := h e (List.mem_cons_self e rest)
    obtain ⟨a, ha⟩ := Option.isSome_iff_exists.mp ha2
    obtain ⟨b, hb⟩ := Option.isSome_iff_exists.mp hb2
    obtain ⟨l2, hl2, hlen, hpt⟩ := ih (fun x hx => h x (List.mem_cons_of_mem e hx))
    have he2 : subtitleOffset e dms =
        some { e with start_time := tsToString (a + dms), end_time := tsToString (b + dms) } :=
      subtitleOffset_eq dms ha hb
    refine ⟨{ e with index := e.index + di, start_time := tsToString (a + dms), end_time := tsToString (b + dms) } :: l2, ?_, by simp [hlen], ?_⟩
    · unfold offsetEntries
      rw [he2, hl2]
      rfl
    · intro k hk
      cases k with
      | zero =>
        refine ⟨rfl, rfl, rfl, ?_⟩
        intro a2 b2 ha3 hb3
        have ea : a = a2 := by
          have : some a = some a2 := ha ▸ ha3
          exact Option.some_inj.mp this
        have eb : b = b2 := by
          have : some b = some b2 := hb ▸ hb3
          exact Option.some_inj.mp this
        subst ea
        subst eb
        exact ⟨rfl, rfl⟩
      | succ k2 =>
        have hk2 : k2 < rest.length := by simpa using hk
        exact hpt k2 hk2

/-- C10: `Transcription.offset` with any offsets, on a transcription whose
entries all carry parseable time strings, succeeds and changes only each
entry's `start_time` and `end_time` (both replaced by the rendering of the
parsed value shifted by exactly `offset_ms`, so each entry's duration in
milliseconds is preserved) and each entry's `index` (shifted by exactly
`offset_index`); every entry's `text` and `translation`, and the
transcription's `end_time`, `end_index` and `language`, are unchanged. -/
theorem transcriptionOffset_frame (t : Transcription) (dms di : Int)
    (h : ∀ e ∈ t.subtitles, (tsParse e.start_time).isSome ∧ (tsParse e.end_time).isSome) :
    ∃ t2, transcriptionOffset t dms di = some t2 ∧
      t2.end_time = t.end_time ∧ t2.end_index = t.end_index ∧ t2.language = t.language ∧
      t2.subtitles.length = t.subtitles.length ∧
      ∀ k, k < t.subtitles.length →
        (t2.subtitles.getD k dfltEntry).text = (t.subtitles.getD k dfltEntry).text ∧
        (t2.subtitles.getD k dfltEntry).translation
          = (t.subtitles.getD k dfltEntry).translation ∧
        (t2.subtitles.getD k dfltEntry).index = (t.subtitles.getD k dfltEntry).index + di ∧
        ∀ a b, tsParse (t.subtitles.getD k dfltEntry).start_time = some a →
          tsParse (t.subtitles.getD k dfltEntry).end_time = some b →
          (t2.subtitles.getD k dfltEntry).start_time = tsToString (a + dms) ∧
          (t2.subtitles.getD k dfltEntry).end_time = tsToString (b + dms) := by
  obtain ⟨l2, hl2, hlen, hpt⟩ := offsetEntries_spec dms di t.subtitles h
  refine ⟨{ t with subtitles := l2 }, ?_, rfl, rfl, rfl, hlen, hpt⟩
  unfold transcriptionOffset
  rw [hl2]
  rfl

def transW : Transcription :=
  { subtitles := [⟨1, "00:00:01,000", "00:00:02,500", "hi", some "ho"⟩,
                  ⟨2, "00:00:02,500", "00:00:04,000", "yo", none⟩]
    end_time := 5000
    end_index := 2
    language := some "en" }

/-- C10 witness: the frame property evaluated on a concrete two-entry
transcription shifted by 1500 ms and 10 indices. -/
theorem transcriptionOffset_frame_witness :
    (∀ e ∈ transW.subtitles, (tsParse e.start_time).isSome ∧ (tsParse e.end_time).isSome) ∧
    ∃ t2, transcriptionOffset transW 1500 10 = some t2 ∧
      t2.end_time = transW.end_time ∧ t2.end_index = transW.end_index ∧
      t2.language = transW.language ∧
      t2.subtitles.length = transW.subtitles.length ∧
      ∀ k, k < transW.subtitles.length →
        (t2.subtitles.getD k dfltEntry).text = (transW.subtitles.getD k dfltEntry).text ∧
        (t2.subtitles.getD k dfltEntry).translation
          = (transW.subtitles.getD k dfltEntry).translation ∧
        (t2.subtitles.getD k dfltEntry).index
          = (transW.subtitles.getD k dfltEntry).index + 10 ∧
        ∀ a b, tsParse (transW.subtitles.getD k dfltEntry).start_time = some a →
          tsParse (transW.subtitles.getD k dfltEntry).end_time = some b →
          (t2.subtitles.getD k dfltEntry).start_time = tsToString (a + 1500) ∧
          (t2.subtitles.getD k dfltEntry).end_time = tsToString (b + 1500) :=
  ⟨by decide, transcriptionOffset_frame transW 1500 10 (by decide)⟩

/-! ## C4: the chunker partitions the audio -/

lemma pyMinBy_mem (key : Nat → Nat) : ∀ (xs : List Nat) (x : Nat), pyMinBy key x xs ∈ x :: xs := by
  intro xs
  induction xs with
  | nil =>
    intro x
    simp [pyMinBy]
  | cons y ys ih =>
    intro x
    have hstep : pyMinBy key x (y :: ys) = pyMinBy key (if key y < key x then y else x) ys := rfl
    rw [hstep]
    rcases List.mem_cons.mp (ih (if key y < key x then y else x)) with h | h
    · rw [h]
      by_cases hc : key y < key x <;> simp [hc]
    · exact List.mem_cons_of_mem _ (List.mem_cons_of_mem _ h)

lemma chunkCut_bounds {D T F : Nat} (mids : List Nat) (start : Nat) (hFT : F < T)
    (hm : ∀ m ∈ mids, m < D) (hlt : start + T < D) :
    start < chunkCut T F mids start ∧ chunkCut T F mids start < D ∧
      chunkCut T F mids start ≤ start + T + F := by
  unfold chunkCut
  rcases hc : mids.filter (fun s => start + T - F ≤ s && s ≤ start + T + F) with _ | ⟨c, cs⟩
  · have hre : (match ([] : List Nat) with
        | [] => start + T
        | c :: cs => pyMinBy (fun s => Nat.dist s (start + T)) c cs) = start + T := rfl
    rw [hre]
    omega
  · have hre : (match c :: cs with
        | [] => start + T
        | c :: cs => pyMinBy (fun s => Nat.dist s (start + T)) c cs) =
          pyMinBy (fun s => Nat.dist s (start + T)) c cs := rfl
    rw [hre]
    have hmem : pyMinBy (fun s => Nat.dist s (start + T)) c cs ∈ c :: cs :=
      pyMinBy_mem (fun s => Nat.dist s (start + T)) cs c
    rw [← hc] at hmem
    obtain ⟨hmids, hcond⟩ := List.mem_filter.mp hmem
    rw [Bool.and_eq_true, decide_eq_true_eq, decide_eq_true_eq] at hcond
    have hD := hm _ hmids
    exact ⟨by omega, hD, by omega⟩

lemma chunkLoop_spec (D T F : Nat) (mids : List Nat) (hFT : F < T)
    (hm : ∀ m ∈ mids, m < D) :
    ∀ fuel start, start < D → D ≤ start + fuel →
      coversB start D (chunkLoop D T F mids fuel start) = true ∧
      ∀ c ∈ chunkLoop D T F mids fuel start, c.2 - c.1 ≤ T + F := by
  intro fuel
  induction fuel with
  | zero =>
    intro start h1 h2
    omega
  | succ fl ih =>
    intro start h1 h2
    by_cases hend : D ≤ start + T
    · constructor
      · show coversB start D (chunkLoop D T F mids (fl + 1) start) = true
        unfold chunkLoop
        rw [if_pos h1, if_pos hend]
        simp [coversB, h1]
      · intro c hcm
        unfold chunkLoop at hcm
        rw [if_pos h1, if_pos hend] at hcm
        rcases List.mem_singleton.mp hcm with rfl
        simp
        omega
    · obtain ⟨hlt, hltD, hub⟩ := chunkCut_bounds mids start hFT hm (by omega)
      have hmin : min (chunkCut T F mids start) D = chunkCut T F mids start := by omega
      have ihc := ih (chunkCut T F mids start) hltD (by omega)
      constructor
      · unfold chunkLoop
        rw [if_pos h1, if_neg hend, hmin]
        simp [coversB, hlt, ihc.1]
      · intro c hcm
        unfold chunkLoop at hcm
        rw [if_pos h1, if_neg hend, hmin] at hcm
        rcases List.mem_cons.mp hcm with rfl | hmem2
        · simp
          omega
        · exact ihc.2 c hmem2

/-- C4: for every audio of duration `D`, target chunk duration `T` and
flexibility `F < T` (the default `F = T / 5` always satisfies this for
`T ≥ 1`), with the silence intervals detected inside the audio,
`chunk_audio` returns chunks that exactly partition `[0, D)` in order —
contiguous, no gaps, no overlaps — each of duration at most `T + F`; when
`0 < D ≤ T` it returns exactly one chunk `[0, D)`, and when `D = 0` it
returns no chunks. -/
theorem chunkAudio_partitions (D T F : Nat) (silences : List (Nat × Nat))
    (hFT : F < T) (hsil : ∀ p ∈ silences, p.1 < p.2 ∧ p.2 ≤ D) :
    coversB 0 D (chunkAudio D T F silences) = true ∧
    (∀ c ∈ chunkAudio D T F silences, c.2 - c.1 ≤ T + F) ∧
    (D = 0 → chunkAudio D T F silences = []) ∧
    (0 < D → D ≤ T → chunkAudio D T F silences = [(0, D)]) := by
  have hm : ∀ m ∈ silences.map (fun p => (p.1 + p.2) / 2), m < D := by
    intro m hmem
    obtain ⟨p, hp, rfl⟩ := List.mem_map.mp hmem
    have := hsil p hp
    omega
  by_cases hD : 0 < D
  · have main := chunkLoop_spec D T F (silences.map (fun p => (p.1 + p.2) / 2)) hFT hm
      (D + 1) 0 hD (by omega)
    refine ⟨main.1, main.2, by omega, ?_⟩
    intro h0 hT
    show chunkLoop D T F (silences.map (fun p => (p.1 + p.2) / 2)) (D + 1) 0 = [(0, D)]
    unfold chunkLoop
    rw [if_pos hD, if_pos (by omega)]
  · have hD0 : D = 0 := by omega
    subst hD0
    refine ⟨rfl, ?_, fun _ => rfl, fun h _ => absurd h (by omega)⟩
    intro c hcm
    simp [chunkAudio, chunkLoop] at hcm

def silW : List (Nat × Nat) := [(6, 12), (18, 24)]

/-- C4 witness: audio of 25 ms with `T = 10`, `F = 3` and silences at
`[6,12)` and `[18,24)` (midpoints 9 and 21) is cut into `[0,9)`, `[9,21)`,
`[21,25)`. -/
theorem chunkAudio_partitions_witness :
    (3 < 10 ∧ ∀ p ∈ silW, p.1 < p.2 ∧ p.2 ≤ 25) ∧
    (coversB 0 25 (chunkAudio 25 10 3 silW) = true ∧
     (∀ c ∈ chunkAudio 25 10 3 silW, c.2 - c.1 ≤ 10 + 3) ∧
     (25 = 0 → chunkAudio 25 10 3 silW = []) ∧
     (0 < 25 → 25 ≤ 10 → chunkAudio 25 10 3 silW = [(0, 25)])) :=
  ⟨⟨by omega, by decide⟩, chunkAudio_partitions 25 10 3 silW (by omega) (by decide)⟩

/-! ## C5: windowed translation requests -/

lemma pySlice_append (l : List α) (a b c : Nat) (h1 : a ≤ b) (h2 : b ≤ c) :
    pySlice l a b ++ pySlice l b c = pySlice l a c := by
  unfold pySlice
  have e1 : c - a = (b - a) + (c - b) := by omega
  rw [e1, List.take_add]
  congr 1
  rw [List.drop_drop]
  congr 2
  omega

lemma pySlice_sublist (l : List α) (a b : Nat) : (pySlice l a b).Sublist l :=
  (List.take_sublist _ _).trans (List.drop_sublist _ _)

lemma numWindows_zero (bs : Nat) (hbs : 1 ≤ bs) : numWindows 0 bs = 0 := by
  unfold numWindows
  exact Nat.div_eq_of_lt (by omega)

lemma numWindows_succ (len bs : Nat) (hbs : 1 ≤ bs) (hpos : 1 ≤ len) :
    numWindows len bs = numWindows (len - bs) bs + 1 := by
  unfold numWindows
  by_cases hle : len ≤ bs
  · have hz : len - bs = 0 := by omega
    rw [hz]
    have hr : (0 + bs - 1) / bs = 0 := Nat.div_eq_of_lt (by omega)
    rw [hr]
    have h1 : (0 + 1) * bs ≤ len + bs - 1 := by omega
    have h2 : len + bs - 1 < (0 + 1 + 1) * bs := by omega
    exact Nat.div_eq_of_lt_le h1 h2
  · have he : len + bs - 1 = (len - bs + bs - 1) + bs := by omega
    rw [he, Nat.add_div_right _ (by omega)]

lemma chunksJoin {α : Type} (bs : Nat) (hbs : 1 ≤ bs) :
    ∀ (n : Nat) (l : List α), l.length ≤ n →
      ((List.range (numWindows l.length bs)).map
        (fun k => pySlice l (k * bs) (k * bs + bs))).flatten = l := by
  intro n
  induction n with
  | zero =>
    intro l hl
    have hnil : l = [] := List.eq_nil_of_length_eq_zero (by omega)
    subst hnil
    rw [show ([] : List α).length = 0 from rfl, numWindows_zero bs hbs]
    rfl
  | succ m ih =>
    intro l hl
    by_cases hnil : l = []
    · subst hnil
      rw [show ([] : List α).length = 0 from rfl, numWindows_zero bs hbs]
      rfl
    · have hpos : 1 ≤ l.length := List.length_pos.mpr hnil
      rw [numWindows_succ l.length bs hbs hpos, List.range_succ_eq_map, List.map_cons,
        List.map_map, List.flatten_cons]
      have hhead : pySlice l (0 * bs) (0 * bs + bs) = l.take bs := by
        unfold pySlice
        rw [Nat.zero_mul, List.drop_zero, Nat.zero_add, Nat.sub_zero]
      have htail : ∀ k, pySlice l (Nat.succ k * bs) (Nat.succ k * bs + bs)
          = pySlice (l.drop bs) (k * bs) (k * bs + bs) := by
        intro k
        unfold pySlice
        rw [List.drop_drop]
        have e1 : Nat.succ k * bs = k * bs + bs := Nat.succ_mul k bs
        have e2 : k * bs + bs + bs - (k * bs + bs) = k * bs + bs - k * bs := by omega
        rw [e1, e2]
        congr 2
        omega
      have hmapeq : ((List.range (numWindows (l.length - bs) bs)).map
            ((fun k => pySlice l (k * bs) (k * bs + bs)) ∘ Nat.succ))
          = ((List.range (numWindows (l.length - bs) bs)).map
            (fun k => pySlice (l.drop bs) (k * bs) (k * bs + bs))) :=
        List.map_congr_left (fun k _ => htail k)
      rw [hhead, hmapeq]
      have hdlen : (l.drop bs).length = l.length - bs := List.length_drop bs l
      have hrec := ih (l.drop bs) (by omega)
      rw [hdlen] at hrec
      rw [hrec]
      exact List.take_append_drop bs l

lemma buildRequest_eq (subs : List SubtitleEntry) (bs ov i : Nat) :
    buildRequest subs bs ov i =
      ((pySlice subs (i - ov) i).map toIdText,
       (pySlice subs i (i + bs)).map toIdText,
       (pySlice subs (i + bs) (i + bs + ov)).map toIdText) := by
  unfold buildRequest
  have h1 : (if 0 < i then pySlice subs (i - ov) i else []) = pySlice subs (i - ov) i := by
    by_cases hi : 0 < i
    · rw [if_pos hi]
    · have hz : i = 0 := by omega
      subst hz
      rw [if_neg hi]
      simp [pySlice]
  have h3 : (if i + bs < subs.length
        then pySlice subs (i + bs) (min subs.length (i + bs + ov)) else [])
      = pySlice subs (i + bs) (i + bs + ov) := by
    by_cases hlt : i + bs < subs.length
    · rw [if_pos hlt]
      by_cases hov : i + bs + ov ≤ subs.length
      · rw [min_eq_right hov]
      · rw [min_eq_left (by omega)]
        unfold pySlice
        have hdlen : (subs.drop (i + bs)).length = subs.length - (i + bs) :=
          List.length_drop _ _
        rw [List.take_of_length_le (by omega), List.take_of_length_le (by omega)]
    · rw [if_neg hlt]
      unfold pySlice
      rw [List.drop_eq_nil_of_le (by omega), List.take_nil]
  rw [h1, h3]

lemma disjointParts_slices (subs : List SubtitleEntry)
    (hids : (subs.map SubtitleEntry.index).Nodup) (a b c d : Nat)
    (h1 : a ≤ b) (h2 : b ≤ c) (h3 : c ≤ d) :
    disjointParts ((pySlice subs a b).map toIdText, (pySlice subs b c).map toIdText,
      (pySlice subs c d).map toIdText) = true := by
  have hA : ((pySlice subs a b).map toIdText).map IdText.id
      = pySlice (subs.map SubtitleEntry.index) a b := by
    rw [List.map_map]
    unfold pySlice
    rw [List.map_take, List.map_drop]
    rfl
  have hB : ((pySlice subs b c).map toIdText).map IdText.id
      = pySlice (subs.map SubtitleEntry.index) b c := by
    rw [List.map_map]
    unfold pySlice
    rw [List.map_take, List.map_drop]
    rfl
  have hC : ((pySlice subs c d).map toIdText).map IdText.id
      = pySlice (subs.map SubtitleEntry.index) c d := by
    rw [List.map_map]
    unfold pySlice
    rw [List.map_take, List.map_drop]
    rfl
  have key : (((pySlice subs a b).map toIdText).map IdText.id ++
      ((pySlice subs b c).map toIdText).map IdText.id ++
      ((pySlice subs c d).map toIdText).map IdText.id).Nodup := by
    rw [hA, hB, hC, pySlice_append _ a b c h1 h2,
      pySlice_append _ a c d (le_trans h1 h2) h3]
    exact List.Nodup.sublist (pySlice_sublist _ a d) hids
  rw [List.append_assoc] at key
  obtain ⟨hnA, hnBC, hdA⟩ := List.nodup_append.mp key
  obtain ⟨hnB, hnC, hdB⟩ := List.nodup_append.mp hnBC
  unfold disjointParts
  rw [Bool.and_eq_true, List.all_eq_true, List.all_eq_true]
  constructor
  · intro x hx
    have hnotin : x ∉ ((pySlice subs b c).map toIdText).map IdText.id ++
        ((pySlice subs c d).map toIdText).map IdText.id := hdA hx
    rw [List.mem_append] at hnotin
    rw [Bool.and_eq_true, Bool.not_eq_true', Bool.not_eq_true',
      decide_eq_false_iff_not, decide_eq_false_iff_not]
    exact ⟨fun hm => hnotin (Or.inl hm), fun hm => hnotin (Or.inr hm)⟩
  · intro x hx
    rw [Bool.not_eq_true', decide_eq_false_iff_not]
    exact fun hm => hdB hx hm

def subsFive : List SubtitleEntry :=
  [⟨1, "00:00:00,000", "00:00:01,000", "one", none⟩,
   ⟨2, "00:00:01,000", "00:00:02,000", "two", none⟩,
   ⟨3, "00:00:02,000", "00:00:03,000", "three", none⟩,
   ⟨4, "00:00:03,000", "00:00:04,000", "four", none⟩,
   ⟨5, "00:00:04,000", "00:00:05,000", "five", none⟩]

/-- C5: `translate_subtitles` partitions the entries into consecutive
windows of `batch_size` (the window batches concatenate back to the whole
entry list, and there are `⌈n / batch_size⌉` requests); request `k` is made
of exactly the up-to-`overlap` entries immediately preceding the window,
the window `subs[k·bs : k·bs + bs]` itself, and the up-to-`overlap` entries
immediately following it; when the entry ids are unique the three parts are
pairwise disjoint.  In particular over five entries with ids 1–5 and
`batch_size = 2, overlap = 1` it issues exactly the three requests of the
spec's example. -/
theorem translationRequests_spec :
    (∀ (subs : List SubtitleEntry) (bs ov : Nat), 1 ≤ bs →
      (subs.map SubtitleEntry.index).Nodup →
      ((translationRequests subs bs ov).map (fun r => r.2.1)).flatten = subs.map toIdText ∧
      (translationRequests subs bs ov).length = (subs.length + bs - 1) / bs ∧
      (∀ k, k < (translationRequests subs bs ov).length →
        (translationRequests subs bs ov).getD k ([], [], []) =
          ((pySlice subs (k * bs - ov) (k * bs)).map toIdText,
           (pySlice subs (k * bs) (k * bs + bs)).map toIdText,
           (pySlice subs (k * bs + bs) (k * bs + bs + ov)).map toIdText)) ∧
      (∀ r ∈ translationRequests subs bs ov, disjointParts r = true)) ∧
    translationRequests subsFive 2 1 =
      [([], [⟨1, "one"⟩, ⟨2, "two"⟩], [⟨3, "three"⟩]),
       ([⟨2, "two"⟩], [⟨3, "three"⟩, ⟨4, "four"⟩], [⟨5, "five"⟩]),
       ([⟨4, "four"⟩], [⟨5, "five"⟩], [])] := by
  constructor
  · intro subs bs ov hbs hids
    refine ⟨?_, ?_, ?_, ?_⟩
    · unfold translationRequests
      rw [List.map_map]
      have hfe : ((fun r : List IdText × List IdText × List IdText => r.2.1) ∘
            fun k => buildRequest subs bs ov (k * bs))
          = fun k => (pySlice subs (k * bs) (k * bs + bs)).map toIdText := by
        funext k
        show (buildRequest subs bs ov (k * bs)).2.1 = _
        rw [buildRequest_eq]
      rw [hfe]
      have hfe2 : (fun k => (pySlice subs (k * bs) (k * bs + bs)).map toIdText)
          = List.map toIdText ∘ fun k => pySlice subs (k * bs) (k * bs + bs) := rfl
      rw [hfe2, ← List.map_map, ← List.map_flatten, chunksJoin bs hbs subs.length subs le_rfl]
    · unfold translationRequests numWindows
      rw [List.length_map, List.length_range]
    · intro k hk
      have hk2 : k < (List.range (numWindows subs.length bs)).length := by
        simpa [translationRequests] using hk
      rw [List.getD_eq_getElem _ _ hk]
      unfold translationRequests
      rw [List.getElem_map, List.getElem_range, buildRequest_eq]
    · intro r hr
      unfold translationRequests at hr
      obtain ⟨k, _, rfl⟩ := List.mem_map.mp hr
      rw [buildRequest_eq]
      exact disjointParts_slices subs hids (k * bs - ov) (k * bs) (k * bs + bs)
        (k * bs + bs + ov) (by omega) (by omega) (by omega)
  · decide

/-- C5 witness: the general window characterization applied to the spec's
five-entry example with `batch_size = 2, overlap = 1`. -/
theorem translationRequests_spec_witness :
    (1 ≤ 2 ∧ (subsFive.map SubtitleEntry.index).Nodup) ∧
    (((translationRequests subsFive 2 1).map (fun r => r.2.1)).flatten = subsFive.map toIdText ∧
     (translationRequests subsFive 2 1).length = (subsFive.length + 2 - 1) / 2 ∧
     (∀ k, k < (translationRequests subsFive 2 1).length →
       (translationRequests subsFive 2 1).getD k ([], [], []) =
         ((pySlice subsFive (k * 2 - 1) (k * 2)).map toIdText,
          (pySlice subsFive (k * 2) (k * 2 + 2)).map toIdText,
          (pySlice subsFive (k * 2 + 2) (k * 2 + 2 + 1)).map toIdText)) ∧
     (∀ r ∈ translationRequests subsFive 2 1, disjointParts r = true)) :=
  ⟨⟨by omega, by decide⟩, translationRequests_spec.1 subsFive 2 1 (by omega) (by decide)⟩
